import Mathlib

/-!
Verification development for a podcast-catalog CLI (Rust sources under
`src/`).  The Rust code is shallowly embedded: pure record types mirror the
serde structs, the fetch layer is a pure map over the requested URLs with the
per-URL adapter abstracted as a function argument, file contents are strings,
and fallible flows return `Except Errors`.
-/

namespace Pcasts

/-- `Errors` from `lib.rs`.  Payloads that wrap foreign error types
(`io::Error`, `csv::Error`, `reqwest::Error`, `ParseIntError`) are modelled
without their payload. -/
inductive Errors where
  | RSS
  | WrongID (id : String)
  | ParseError
  | IOError
  | CSVError
  | Timeout (url : String)
  | NotFound (url : String)
  | Network
deriving DecidableEq, Repr

/-- `Podcast` from `podcasts.rs` (`id, url, rss_url, title`); the `u64` id is
modelled as `Nat`. -/
structure Podcast where
  id : Nat
  url : String
  rss_url : String
  title : String
deriving DecidableEq, Repr

/-- `Episode` from `episodes.rs` (`guid, title, pub_date, link, podcast,
podcast_id`). -/
structure Episode where
  guid : String
  title : String
  pub_date : String
  link : String
  podcast : String
  podcast_id : Nat
deriving DecidableEq, Repr

/-- One item of a parsed feed document, as consumed by `Episodes::update`:
the rss crate exposes `guid`, `pub_date`, `title`, `link` as options (a `guid`
is its `value()` string). -/
structure RssItem where
  guid : Option String
  pub_date : Option String
  title : Option String
  link : Option String
deriving DecidableEq, Repr

/-- A parsed feed document (`rss::Channel`): the fields the code reads. -/
structure RssChannel where
  title : String
  link : String
  items : List RssItem
deriving DecidableEq, Repr

/-- `Web::get` (`web.rs`): both the production body (a rayon indexed
parallel map, which yields exactly one `(url, outcome)` pair per input URL in
input order) and the test body (a plain `iter().map`) pair each requested URL
with the adapter's outcome for it.  The per-URL adapter (reqwest call plus
status/timeout classification, or the fixture table) is abstracted as
`fetch`. -/
def webGet (fetch : String → Except Errors String) (urls : List String) :
    List (String × Except Errors String) :=
  urls.map (fun url => (url, fetch url))

/-- `FilePermissions` from `file_system.rs`. -/
inductive FilePermissions where
  | Read
  | Write
  | WriteTruncate
  | Append
deriving DecidableEq, Repr

/-- The flags that `FileSystem::open` sets on `fs::OpenOptions`. -/
structure OpenFlags where
  readFlag : Bool := false
  writeFlag : Bool := false
  truncateFlag : Bool := false
  appendFlag : Bool := false
deriving DecidableEq, Repr

/-- The permission loop of `FileSystem::open` (`file_system.rs` lines
61-78). -/
def openFlags (perms : List FilePermissions) : OpenFlags :=
  perms.foldl
    (fun acc p =>
      match p with
      | FilePermissions.Read => { acc with readFlag := true }
      | FilePermissions.Write => { acc with writeFlag := true }
      | FilePermissions.WriteTruncate =>
          { acc with writeFlag := true, truncateFlag := true }
      | FilePermissions.Append => { acc with appendFlag := true })
    {}

/-- Content of a file after a flow opens it (content `old`) under `flags` and
writes the byte string `new` from the initial position: truncate erases the
old content first, append writes after it, and plain write overwrites in
place, so the old content's tail beyond `new` survives. -/
def fileAfterWrite (flags : OpenFlags) (old new : String) : String :=
  if flags.truncateFlag then new
  else if flags.appendFlag then old ++ new
  else new ++ String.mk (old.toList.drop new.length)

/-- CSV field quoting with the csv crate's defaults: a field holding a comma,
a double quote or a newline is quoted, with inner quotes doubled. -/
def csvEscapeField (s : String) : String :=
  if s.toList.contains ',' || s.toList.contains '\"' || s.toList.contains '\n' then
    "\"" ++ String.join (s.toList.map
      (fun c => if c = '\"' then "\"\"" else String.singleton c)) ++ "\""
  else s

/-- One CSV record line. -/
def csvRow (fields : List String) : String :=
  String.intercalate "," (fields.map csvEscapeField) ++ "\n"

/-- Header row the csv writer derives from `Episode`. -/
def episodeHeader : String := "guid,title,pub_date,link,podcast,podcast_id\n"

/-- The serde field order of `Episode`. -/
def episodeFields (e : Episode) : List String :=
  [e.guid, e.title, e.pub_date, e.link, e.podcast, toString e.podcast_id]

/-- What a csv writer with `has_headers(true)` emits for `items`: the header
is written lazily before the first record, so zero records emit nothing. -/
def serializeEpisodes (items : List Episode) : String :=
  match items with
  | [] => ""
  | _ => episodeHeader ++ String.join (items.map (fun e => csvRow (episodeFields e)))

/-- Header row the csv writer derives from `Podcast`. -/
def podcastHeader : String := "id,url,rss_url,title\n"

/-- The serde field order of `Podcast`. -/
def podcastFields (p : Podcast) : List String :=
  [toString p.id, p.url, p.rss_url, p.title]

/-- What a csv writer emits for `ps`; `hasHeaders` mirrors the
`has_headers` builder flag, and the header is again lazy. -/
def serializePodcasts (hasHeaders : Bool) (ps : List Podcast) : String :=
  match ps with
  | [] => ""
  | _ => (if hasHeaders then podcastHeader else "")
      ++ String.join (ps.map (fun p => csvRow (podcastFields p)))

/-- Model of `std::collections::hash_map::DefaultHasher`: an initial state
(`DefaultHasher::new()` is documented to build the hasher with fixed keys, so
the same state on every run), a transition fed by `Hash::hash` of a string,
and `finish`. -/
structure HasherModel where
  initState : Nat
  writeStr : Nat → String → Nat
  finish : Nat → Nat

/-- `Podcasts::add`, id computation (`podcasts.rs` lines 146-150): a hasher is
created fresh inside the per-URL closure, the URL is hashed, `finish` is
read. -/
def assignId (H : HasherModel) (u : String) : Nat :=
  H.finish (H.writeStr H.initState u)

/-- `Podcasts::add`: the `rss_url`s already recorded in the catalog (the
`saved_urls` set). -/
def savedUrls (catalog : List Podcast) : List String :=
  catalog.map Podcast.rss_url

/-- `str::trim` of the Rust standard library: strip leading and trailing
whitespace.  (Lean's own `String.trim` is extensionally the same but is not
kernel-reducible, so the stripping is spelled out on the character list.) -/
def trimStr (s : String) : String :=
  String.mk (((s.toList.dropWhile Char.isWhitespace).reverse.dropWhile
    Char.isWhitespace).reverse)

/-- `Podcasts::add` (`podcasts.rs` lines 123-128): trim each requested value
and keep only those not already saved; only these are handed to `Web::get`. -/
def addNewUrls (catalog : List Podcast) (addValues : List String) : List String :=
  (addValues.map trimStr).filter (fun v => !(savedUrls catalog).contains v)

/-- `Podcasts::add` (`podcasts.rs` lines 130-158): fetch the filtered URLs,
drop transport failures and unparsable bodies, and build one `Podcast` per
parsed document, with the id hashed from the requested URL by a fresh
hasher. -/
def addPodcasts (H : HasherModel) (parseFeed : String → Option RssChannel)
    (fetch : String → Except Errors String) (catalog : List Podcast)
    (addValues : List String) : List Podcast :=
  (webGet fetch (addNewUrls catalog addValues)).filterMap
    (fun p =>
      match p.2 with
      | Except.ok res =>
        match parseFeed res with
        | none => none
        | some ch =>
          some { id := HasherModel.finish H (HasherModel.writeStr H (HasherModel.initState H) p.1),
                 url := ch.link, rss_url := p.1, title := ch.title }
      | Except.error _ => none)

/-- `Podcasts::add`, output serialization (`podcasts.rs` lines 160-171): the
new rows are appended (the writer file is opened `Read, Append`), with a
header only when no URL was previously saved. -/
def addOutput (H : HasherModel) (parseFeed : String → Option RssChannel)
    (fetch : String → Except Errors String) (catalog : List Podcast)
    (addValues : List String) : String :=
  serializePodcasts (savedUrls catalog).isEmpty (addPodcasts H parseFeed fetch catalog addValues)

/-- The subscription catalog after an `add` run: previous records plus the
appended ones. -/
def addCatalog (H : HasherModel) (parseFeed : String → Option RssChannel)
    (fetch : String → Except Errors String) (catalog : List Podcast)
    (addValues : List String) : List Podcast :=
  catalog ++ addPodcasts H parseFeed fetch catalog addValues

/-- `Podcasts::remove` (`podcasts.rs` lines 186-190): retain only records
whose `rss_url` differs from every requested value. -/
def removePodcasts (removeValues : List String) (catalog : List Podcast) :
    List Podcast :=
  catalog.filter (fun p => removeValues.all (fun v => v ≠ p.rss_url))

/-- `Podcasts::remove`, full flow (`podcasts.rs` lines 68-88 and 177-200):
the catalog file is reopened `WriteTruncate` and rewritten from the retained
records; the flow itself reports success. -/
def removeFlow (removeValues : List String) (catalog : List Podcast) :
    Except Errors String :=
  Except.ok (fileAfterWrite (openFlags [FilePermissions.WriteTruncate]) (serializePodcasts true catalog)
    (serializePodcasts true (removePodcasts removeValues catalog)))

/-- `Episodes::update`, item filter (`episodes.rs` lines 263-280): an item is
kept when guid, pub date and title are all present; a missing link becomes
`"-"`. -/
def episodeOfItem (podcastTitle : String) (podcastId : Nat) (item : RssItem) :
    Option Episode :=
  match item.guid, item.pub_date, item.title, item.link with
  | some g, some d, some t, link =>
    some { guid := g, pub_date := d, title := t, link := link.getD "-",
           podcast := podcastTitle, podcast_id := podcastId }
  | _, _, _, _ => none

/-- The episode list `Episodes::update` builds from one parsed channel. -/
def channelEpisodes (ch : RssChannel) (podcastId : Nat) : List Episode :=
  ch.items.filterMap (episodeOfItem ch.title podcastId)

/-- `urls_map` lookup in `Episodes::update` (`episodes.rs` lines 242-245):
a `HashMap` collected from the podcast list, so a later entry with the same
`rss_url` overwrites an earlier one. -/
def urlPodcastId (podcasts : List Podcast) (url : String) : Option Nat :=
  (podcasts.reverse.find? (fun p => p.rss_url = url)).map Podcast.id

/-- Per-podcast episode catalog files the update flow writes into, as pairs
`(podcast id, current file content)`. -/
abbrev CatalogFiles := List (Nat × String)

/-- Overwrite the episode catalog of `pid` through a handle opened with
`FilePermissions::Write` (`episodes.rs` lines 73-78: no truncate flag). -/
def writeEpisodeCatalog (files : CatalogFiles) (pid : Nat) (new : String) :
    CatalogFiles :=
  files.map (fun f => if f.1 = pid then (f.1, fileAfterWrite (openFlags [FilePermissions.Write]) f.2 new) else f)

/-- The result loop of `Episodes::update` (`episodes.rs` lines 249-291):
`let bytes = bytes?` propagates the first transport failure; an unparsable
body is skipped with `continue`; a URL absent from `urls_map`, or a podcast
id without an opened writer, raises `Errors::RSS`; otherwise the parsed item
list is serialized into that podcast's catalog file. -/
def updateGo (podcasts : List Podcast) (parseFeed : String → Option RssChannel)
    (files : CatalogFiles) :
    List (String × Except Errors String) → Except Errors CatalogFiles
  | [] => Except.ok files
  | (_, Except.error e) :: _ => Except.error e
  | (url, Except.ok bytes) :: rest =>
    match parseFeed bytes with
    | none => updateGo podcasts parseFeed files rest
    | some ch =>
      match urlPodcastId podcasts url with
      | none => Except.error Errors.RSS
      | some pid =>
        match files.find? (fun f => f.1 = pid) with
        | none => Except.error Errors.RSS
        | some _ =>
          updateGo podcasts parseFeed
            (writeEpisodeCatalog files pid (serializeEpisodes (channelEpisodes ch pid))) rest

/-- `Episodes::update` as invoked by `Episodes::run` (`episodes.rs` lines
54-89 and 238-294): fetch every podcast's `rss_url` and reconcile the
results into the opened per-podcast catalog files. -/
def updateFlow (podcasts : List Podcast) (fetch : String → Except Errors String)
    (parseFeed : String → Option RssChannel) (files : CatalogFiles) :
    Except Errors CatalogFiles :=
  updateGo podcasts parseFeed files (webGet fetch (podcasts.map Podcast.rss_url))

/-- `Episodes::download`, selection (`episodes.rs` lines 329-346): keep the
episodes matching the requested guids (all of them when no guids are given),
then take the first `count` in catalog order when a count is given. -/
def selectEpisodes (ids : Option (List String)) (episodes : List Episode)
    (count : Option Nat) : List Episode :=
  let filtered := episodes.filter
    (fun e =>
      match ids with
      | none => true
      | some l => l.any (fun i => i = e.guid))
  filtered.take (count.getD filtered.length)

/-- One `HashMap` insertion of `(e.link, e)`: overwrite the value when the
key exists, otherwise add the entry. -/
def insertByLink (acc : List (String × Episode)) (e : Episode) :
    List (String × Episode) :=
  if acc.any (fun p => p.1 = e.link) then
    acc.map (fun p => if p.1 = e.link then (p.1, e) else p)
  else acc ++ [(e.link, e)]

/-- `episodes_map` of `Episodes::download` (`episodes.rs` lines 344-348):
collecting into a `HashMap` keyed by `link` deduplicates links, the last
episode with a given link winning.  The real map's key iteration order is
arbitrary; the model fixes first-insertion order, which no claim relies
on. -/
def episodesByLink (episodes : List Episode) : List (String × Episode) :=
  episodes.foldl insertByLink []

/-- The result loop of `Episodes::download` (`episodes.rs` lines 351-357):
`let bytes = bytes?` propagates the first transport failure; otherwise the
episode for the URL is looked up (the source unwraps a key known to be
present; the model's `none` branch is unreachable for URL lists drawn from
the map's keys) and `"{podcast}_{title}.mp3"` is paired with the bytes. -/
def downloadGo (emap : List (String × Episode)) :
    List (String × Except Errors String) → Except Errors (List (String × String))
  | [] => Except.ok []
  | (_, Except.error e) :: _ => Except.error e
  | (url, Except.ok bytes) :: rest =>
    match emap.find? (fun p => p.1 = url) with
    | none => Except.error Errors.RSS
    | some pe =>
      match downloadGo emap rest with
      | Except.error e => Except.error e
      | Except.ok files =>
        Except.ok ((pe.2.podcast ++ "_" ++ pe.2.title ++ ".mp3", bytes) :: files)

/-- `Episodes::download` (`episodes.rs` lines 313-360): select, deduplicate
by link, fetch every selected link, and name each fetched payload. -/
def downloadFlow (ids : Option (List String)) (episodes : List Episode)
    (count : Option Nat) (fetch : String → Except Errors String) :
    Except Errors (List (String × String)) :=
  let emap := episodesByLink (selectEpisodes ids episodes count)
  downloadGo emap (webGet fetch (emap.map Prod.fst))

/-- The no-id branch of the episodes `list` subcommand (`episodes.rs` lines
119-147): the per-podcast episode files that can be opened, in catalog
order. -/
def listAllFiles (catalog : List Podcast) (openFile : Nat → Option String) :
    List (Nat × String) :=
  catalog.filterMap (fun p => (openFile p.id).map (fun c => (p.id, c)))

/-- The loop over those files (`episodes.rs` lines 149-154): the body ends in
`return self.list(...)`, so the ids whose episodes actually get printed. -/
def listAllPrintedIds (catalog : List Podcast) (openFile : Nat → Option String) :
    List Nat :=
  match listAllFiles catalog openFile with
  | [] => []
  | f :: _ => [f.1]

/-- `Episodes::list` (`episodes.rs` lines 296-311): parsed episodes are
printed in reverse storage order. -/
def listPrinted (episodes : List Episode) : List Episode :=
  episodes.reverse

/-- Filename synthesized for an episode by `download` and `list_downloaded`
(`episodes.rs` lines 355 and 378). -/
def episodeFileName (e : Episode) : String :=
  e.podcast ++ "_" ++ e.title ++ ".mp3"

/-- `Episodes::list_downloaded`, match step (`episodes.rs` lines 373-381):
stored episodes whose synthesized filename occurs in the download-directory
listing. -/
def downloadedMatches (episodes : List Episode) (dirListing : List String) :
    List Episode :=
  episodes.filter (fun e => dirListing.contains (episodeFileName e))

/-- `Episodes::list_downloaded`, print loop (`episodes.rs` lines 383-391):
iterate the matches reversed with indices and skip (`continue`) every index
below `count`, printing the rest. -/
def listDownloadedPrinted (episodes : List Episode) (dirListing : List String)
    (count : Option Nat) : List Episode :=
  ((downloadedMatches episodes dirListing).reverse.enum.filter
    (fun p =>
      match count with
      | some c => decide (¬ p.1 < c)
      | none => true)).map Prod.snd

/-! Concrete fixtures used by witnesses and counterexamples. -/

/-- A small executable hasher instance. -/
def toyHasher : HasherModel :=
  { initState := 0, writeStr := fun s u => s * 31 + u.length, finish := fun s => s + 1 }

/-- A feed item carrying all four fields. -/
def toyItemFull : RssItem :=
  { guid := some "g", pub_date := some "d", title := some "t", link := some "l" }

/-- A one-item parsed channel. -/
def toyChannel : RssChannel := { title := "T", link := "L", items := [toyItemFull] }

/-- A parser recognizing exactly the body `"feed"`. -/
def parseFixture : String → Option RssChannel :=
  fun b => if b = "feed" then some toyChannel else none

/-- An adapter for which every URL succeeds with a parsable body. -/
def fetchFeedOk : String → Except Errors String := fun _ => Except.ok "feed"

/-- An adapter timing out on `"u1"` and succeeding elsewhere. -/
def fetchTimeoutU1 : String → Except Errors String :=
  fun u => if u = "u1" then Except.error (Errors.Timeout "u1") else Except.ok "feed"

def pod1 : Podcast := { id := 1, url := "s1", rss_url := "u1", title := "P1" }

def pod2 : Podcast := { id := 2, url := "s2", rss_url := "u2", title := "P2" }

/-- The episode `toyChannel` yields for podcast id 1. -/
def toyEpisode : Episode :=
  { guid := "g", title := "t", pub_date := "d", link := "l", podcast := "T", podcast_id := 1 }

/-- A previous episode-catalog content that is longer than the fresh
serialization of `[toyEpisode]`. -/
def oldCatalogContent : String :=
  "guid,title,pub_date,link,podcast,podcast_id\nOLDg,OLDt,OLDd,OLDl,OLDT,999\nextra"

def epA : Episode :=
  { guid := "ga", title := "a", pub_date := "d1", link := "la", podcast := "P", podcast_id := 1 }

def epB : Episode :=
  { guid := "gb", title := "b", pub_date := "d2", link := "lb", podcast := "P", podcast_id := 1 }

def epC : Episode :=
  { guid := "gc", title := "c", pub_date := "d3", link := "lc", podcast := "P", podcast_id := 1 }

/-- An episode whose media link ends in `.m4a`. -/
def m4aEpisode : Episode :=
  { guid := "gm", title := "Ep", pub_date := "d", link := "https://host/file.m4a",
    podcast := "Pod", podcast_id := 1 }

/-! Claim theorems. -/

/-- C8: for a list of distinct URLs, the fetch orchestrator returns exactly
one `(url, outcome)` pair per requested URL: the first components are the
request list itself, every requested URL carries its adapter outcome, and no
URL appears twice among the pairs. -/
theorem webGet_one_outcome_per_url (fetch : String → Except Errors String)
    (urls : List String) (hnd : urls.Nodup) :
    (webGet fetch urls).map Prod.fst = urls ∧
    (∀ u ∈ urls, (u, fetch u) ∈ webGet fetch urls) ∧
    (∀ u ∈ urls, ((webGet fetch urls).map Prod.fst).count u = 1) := by
  have hmap : (webGet fetch urls).map Prod.fst = urls := by
    simp only [webGet, List.map_map]
    exact List.map_id urls
  refine ⟨hmap, ?_, ?_⟩
  · intro u hu
    exact List.mem_map.mpr ⟨u, hu, rfl⟩
  · intro u hu
    rw [hmap]
    exact List.count_eq_one_of_mem hnd hu

/-- Witness for C8 at a concrete two-URL batch. -/
theorem webGet_one_outcome_per_url_witness :
    ((webGet (fun _ => Except.ok "x") ["a", "b"]).map Prod.fst).count "a" = 1 :=
  (webGet_one_outcome_per_url (fun _ => Except.ok "x") ["a", "b"] (by decide)).2.2 "a" (by decide)

/-- C9 counterexample: an item whose guid is present but empty is still
turned into a stored episode, so inclusion does not require a non-empty
guid. -/
theorem episode_included_with_empty_guid :
    ¬ (∀ (pt : String) (pid : Nat) (item : RssItem),
        (episodeOfItem pt pid item).isSome = true → item.guid ≠ some "") := by
  intro h
  exact absurd rfl
    (h "P" 1 { guid := some "", pub_date := some "d", title := some "t", link := none }
      (by decide))

/-- C9 amended: an item becomes a stored episode exactly when guid, publish
date and title are all present (possibly empty); a missing link is replaced
by the placeholder `"-"`, a present link is kept verbatim. -/
theorem episode_inclusion_presence_iff :
    ∀ (pt : String) (pid : Nat) (item : RssItem),
      ((episodeOfItem pt pid item).isSome = true ↔
        (item.guid.isSome = true ∧ item.pub_date.isSome = true ∧ item.title.isSome = true)) ∧
      (∀ g d t, episodeOfItem pt pid
          { guid := some g, pub_date := some d, title := some t, link := none } =
        some { guid := g, title := t, pub_date := d, link := "-", podcast := pt, podcast_id := pid }) ∧
      (∀ g d t l, episodeOfItem pt pid
          { guid := some g, pub_date := some d, title := some t, link := some l } =
        some { guid := g, title := t, pub_date := d, link := l, podcast := pt, podcast_id := pid }) := by
  intro pt pid item
  refine ⟨?_, ?_, ?_⟩
  · obtain ⟨g, d, t, l⟩ := item
    cases g <;> cases d <;> cases t <;> cases l <;> simp [episodeOfItem]
  · intro g d t
    rfl
  · intro g d t l
    rfl

/-- Every record built by `addPodcasts` stems from one of the filtered URLs,
and its id is the fresh-hasher digest of its own `rss_url`. -/
lemma mem_addPodcasts {H : HasherModel} {parseFeed : String → Option RssChannel}
    {fetch : String → Except Errors String} {catalog : List Podcast}
    {values : List String} {p : Podcast}
    (hp : p ∈ addPodcasts H parseFeed fetch catalog values) :
    p.rss_url ∈ addNewUrls catalog values ∧ p.id = assignId H p.rss_url := by
  unfold addPodcasts at hp
  obtain ⟨⟨u, r⟩, hmem, heq⟩ := List.mem_filterMap.mp hp
  have hu : u ∈ addNewUrls catalog values := by
    unfold webGet at hmem
    obtain ⟨u0, hu0, hpair⟩ := List.mem_map.mp hmem
    cases hpair
    exact hu0
  cases r with
  | error e => simp at heq
  | ok res =>
    cases hpf : parseFeed res with
    | none => simp [hpf] at heq
    | some ch =>
      simp only [hpf] at heq
      cases heq
      exact ⟨hu, rfl⟩

/-- C5: a requested URL already recorded as some row's `rss_url` is excluded
from the URL list handed to the fetch orchestrator and produces no appended
row; a new URL that fetches and parses successfully yields exactly one
catalog row, and a second `add` of the same URL appends nothing. -/
theorem add_idempotent_per_url :
    (∀ (H : HasherModel) (parseFeed : String → Option RssChannel)
        (fetch : String → Except Errors String) (catalog : List Podcast)
        (values : List String) (u : String), u ∈ savedUrls catalog →
      u ∉ addNewUrls catalog values ∧
        ∀ p ∈ addPodcasts H parseFeed fetch catalog values, p.rss_url ≠ u) ∧
    (∀ (H : HasherModel) (parseFeed : String → Option RssChannel)
        (fetch : String → Except Errors String) (catalog : List Podcast)
        (u b : String) (ch : RssChannel), trimStr u = u → u ∉ savedUrls catalog →
        fetch u = Except.ok b → parseFeed b = some ch →
      ((addCatalog H parseFeed fetch catalog [u]).filter
          (fun p => p.rss_url = u)).length = 1 ∧
        addPodcasts H parseFeed fetch (addCatalog H parseFeed fetch catalog [u]) [u] = []) := by
  have hnot : ∀ (catalog : List Podcast) (values : List String) (u : String),
      u ∈ savedUrls catalog → u ∉ addNewUrls catalog values := by
    intro catalog values u hu hmem
    have h2 := (List.mem_filter.mp hmem).2
    simp at h2
    exact h2 hu
  constructor
  · intro H parseFeed fetch catalog values u hu
    refine ⟨hnot catalog values u hu, ?_⟩
    intro p hp hpu
    exact hnot catalog values u hu (hpu ▸ (mem_addPodcasts hp).1)
  · intro H parseFeed fetch catalog u b ch htrim hnew hf hp
    have hurls : addNewUrls catalog [u] = [u] := by
      unfold addNewUrls
      rw [List.map_singleton, htrim, List.filter_singleton]
      simp [hnew]
    have hadd : addPodcasts H parseFeed fetch catalog [u] =
        [{ id := assignId H u, url := ch.link, rss_url := u, title := ch.title }] := by
      unfold addPodcasts
      rw [hurls]
      unfold webGet
      simp [hf, hp, assignId]
    have hcatfilter : catalog.filter (fun p => p.rss_url = u) = [] := by
      rw [List.filter_eq_nil_iff]
      intro p hpc
      simp only [decide_eq_true_eq]
      intro hpu
      exact hnew (List.mem_map.mpr ⟨p, hpc, hpu⟩)
    constructor
    · unfold addCatalog
      rw [hadd, List.filter_append, hcatfilter, List.nil_append]
      simp
    · have hsaved : u ∈ savedUrls (addCatalog H parseFeed fetch catalog [u]) := by
        unfold addCatalog savedUrls
        rw [hadd, List.map_append]
        simp
      have hempty : addNewUrls (addCatalog H parseFeed fetch catalog [u]) [u] = [] := by
        unfold addNewUrls
        rw [List.map_singleton, htrim, List.filter_singleton]
        simp [hsaved]
      unfold addPodcasts
      rw [hempty]
      rfl

/-- Witness for C5: with one saved subscription `pod1`, its URL is filtered
before fetching; a fresh URL `"u2"` added over the empty catalog yields
exactly one row on the first call. -/
theorem add_idempotent_per_url_witness :
    ("u1" ∉ addNewUrls [pod1] ["u1", "u2"]) ∧
    ((addCatalog toyHasher parseFixture fetchFeedOk [] ["u2"]).filter
        (fun p => p.rss_url = "u2")).length = 1 := by
  constructor
  · exact (add_idempotent_per_url.1 toyHasher parseFixture fetchFeedOk [pod1]
      ["u1", "u2"] "u1" (by decide)).1
  · exact (add_idempotent_per_url.2 toyHasher parseFixture fetchFeedOk [] "u2" "feed"
      toyChannel (by decide) (by decide) (by rfl) (by rfl)).1

/-- C6: identity assignment is deterministic and stateless: each appended
row's id is the fresh-hasher digest of its own feed URL alone, so two rows
built from the same URL in any two batches, over any catalogs and adapters,
carry the same id. -/
theorem assign_deterministic_stateless :
    (∀ (H : HasherModel) (parseFeed : String → Option RssChannel)
        (fetch : String → Except Errors String) (catalog : List Podcast)
        (values : List String) (p : Podcast),
        p ∈ addPodcasts H parseFeed fetch catalog values → p.id = assignId H p.rss_url) ∧
    (∀ (H : HasherModel) (pf1 pf2 : String → Option RssChannel)
        (f1 f2 : String → Except Errors String) (c1 c2 : List Podcast)
        (v1 v2 : List String) (p q : Podcast),
        p ∈ addPodcasts H pf1 f1 c1 v1 → q ∈ addPodcasts H pf2 f2 c2 v2 →
        p.rss_url = q.rss_url → p.id = q.id) := by
  constructor
  · intro H parseFeed fetch catalog values p hp
    exact (mem_addPodcasts hp).2
  · intro H pf1 pf2 f1 f2 c1 c2 v1 v2 p q hp hq huv
    rw [(mem_addPodcasts hp).2, (mem_addPodcasts hq).2, huv]

/-- Witness for C6: the row added for `"u2"` over the empty catalog and the
row added for `"u2"` over a catalog already holding `pod1`, in a batch also
hashing `"x"` first, carry the same id. -/
theorem assign_deterministic_stateless_witness :
    ({ id := 3, url := "L", rss_url := "u2", title := "T" } : Podcast) ∈
        addPodcasts toyHasher parseFixture fetchFeedOk [] ["u2"] ∧
    ({ id := 3, url := "L", rss_url := "u2", title := "T" } : Podcast) ∈
        addPodcasts toyHasher parseFixture fetchFeedOk [pod1] ["x", "u2"] ∧
    ({ id := 3, url := "L", rss_url := "u2", title := "T" } : Podcast).id =
      ({ id := 3, url := "L", rss_url := "u2", title := "T" } : Podcast).id :=
  ⟨by decide, by decide,
   assign_deterministic_stateless.2 toyHasher parseFixture parseFixture fetchFeedOk
     fetchFeedOk [] [pod1] ["u2"] ["x", "u2"] _ _ (by decide) (by decide) rfl⟩

/-- C7: `remove` keeps exactly the order-preserved subsequence of records
whose `rss_url` matches none of the requested values, the truncating rewrite
emits just that subsequence, unmatched values change nothing and raise no
error, and removing every stored `rss_url` empties the catalog. -/
theorem remove_filters_exactly :
    (∀ (values : List String) (catalog : List Podcast),
        (removePodcasts values catalog).Sublist catalog) ∧
    (∀ (values : List String) (catalog : List Podcast) (p : Podcast),
        p ∈ removePodcasts values catalog ↔ p ∈ catalog ∧ p.rss_url ∉ values) ∧
    (∀ (values : List String) (catalog : List Podcast),
        removeFlow values catalog =
          Except.ok (serializePodcasts true (removePodcasts values catalog))) ∧
    (∀ (v : String) (values : List String) (catalog : List Podcast),
        (∀ p ∈ catalog, p.rss_url ≠ v) →
        removePodcasts (v :: values) catalog = removePodcasts values catalog) ∧
    (∀ (values : List String) (catalog : List Podcast),
        (∀ p ∈ catalog, p.rss_url ∈ values) → removePodcasts values catalog = []) := by
  refine ⟨?_, ?_, ?_, ?_, ?_⟩
  · intro values catalog
    exact List.filter_sublist catalog
  · intro values catalog p
    unfold removePodcasts
    rw [List.mem_filter]
    constructor
    · rintro ⟨hm, hall⟩
      refine ⟨hm, ?_⟩
      intro hv
      have := List.all_eq_true.mp hall _ hv
      simp at this
    · rintro ⟨hm, hv⟩
      refine ⟨hm, List.all_eq_true.mpr ?_⟩
      intro v hvv
      simp only [decide_eq_true_eq]
      intro hveq
      exact hv (hveq ▸ hvv)
  · intro values catalog
    rfl
  · intro v values catalog hnone
    unfold removePodcasts
    refine List.filter_congr ?_
    intro p hp
    simp [hnone p hp, Ne.symm (hnone p hp)]
  · intro values catalog hall
    unfold removePodcasts
    rw [List.filter_eq_nil_iff]
    intro p hp
    simp only [List.all_eq_true, decide_eq_true_eq, not_forall]
    exact ⟨p.rss_url, hall p hp, by simp⟩

/-- Witness for C7 at a concrete catalog. -/
theorem remove_filters_exactly_witness :
    removePodcasts ["zzz", "u1"] [pod1, pod2] = removePodcasts ["u1"] [pod1, pod2] ∧
    removePodcasts ["u1", "u2"] [pod1, pod2] = [] :=
  ⟨remove_filters_exactly.2.2.2.1 "zzz" ["u1"] [pod1, pod2] (by decide),
   remove_filters_exactly.2.2.2.2 ["u1", "u2"] [pod1, pod2] (by decide)⟩

/-- C1 counterexample: in an update over two subscriptions where the first
URL's fetch times out and the second fetches and parses fine, the flow
returns the transport error instead of skipping the failed item and
processing the rest. -/
theorem update_transport_error_aborts_flow :
    updateFlow [pod1, pod2] fetchTimeoutU1 parseFixture [(1, ""), (2, "")] =
      Except.error (Errors.Timeout "u1") := by
  rfl

/-- C1 amended: only per-item parse failures are recovered locally in the
update loop (the subscription is skipped, its catalog untouched, and the
remaining outcomes processed); a transport failure of any URL's fetch makes
both the update loop and the download loop stop at that outcome and return
its error, leaving the remaining outcomes unprocessed. -/
theorem update_download_error_propagation :
    (∀ (podcasts : List Podcast) (parseFeed : String → Option RssChannel)
        (files : CatalogFiles) (url : String) (e : Errors)
        (rest : List (String × Except Errors String)),
        updateGo podcasts parseFeed files ((url, Except.error e) :: rest) =
          Except.error e) ∧
    (∀ (podcasts : List Podcast) (parseFeed : String → Option RssChannel)
        (files : CatalogFiles) (url b : String)
        (rest : List (String × Except Errors String)), parseFeed b = none →
        updateGo podcasts parseFeed files ((url, Except.ok b) :: rest) =
          updateGo podcasts parseFeed files rest) ∧
    (∀ (emap : List (String × Episode)) (url : String) (e : Errors)
        (rest : List (String × Except Errors String)),
        downloadGo emap ((url, Except.error e) :: rest) = Except.error e) := by
  refine ⟨?_, ?_, ?_⟩
  · intro podcasts parseFeed files url e rest
    rfl
  · intro podcasts parseFeed files url b rest hpf
    simp only [updateGo, hpf]
  · intro emap url e rest
    rfl

/-- Witness for C1's amended statement: a concrete unparsable body is
skipped and the rest of the batch still processed. -/
theorem update_download_error_propagation_witness :
    updateGo [pod1] parseFixture [(1, "")] [("u1", Except.ok "junk")] =
      updateGo [pod1] parseFixture [(1, "")] [] :=
  update_download_error_propagation.2.1 [pod1] parseFixture [(1, "")] "u1" "junk" []
    (by decide)

/-- C2: evaluation at the failing input.  The update branch of
`Episodes::run` opens each episode catalog with `FilePermissions::Write`
only, so the rewrite does not truncate: with a previous content longer than
the fresh serialization, the flow succeeds but the final content is the
fresh serialization followed by the stale tail of the old content, not the
fresh serialization alone. -/
theorem update_write_without_truncate_keeps_stale_bytes :
    updateFlow [pod1] fetchFeedOk parseFixture [(1, oldCatalogContent)] =
      Except.ok [(1, serializeEpisodes [toyEpisode] ++
        String.mk (oldCatalogContent.toList.drop (serializeEpisodes [toyEpisode]).length))] ∧
    (serializeEpisodes [toyEpisode]).length < oldCatalogContent.length ∧
    (openFlags [FilePermissions.Write]).truncateFlag = false := by
  refine ⟨rfl, by decide, rfl⟩

/-- C3: evaluation at the failing input.  With two subscriptions whose
episode catalogs both open, the no-id list branch prints only the first
catalog (the loop body returns unconditionally), although both files were
collected. -/
theorem list_all_prints_only_first_catalog :
    listAllPrintedIds [pod1, pod2] (fun _ => some "c") = [1] ∧
    (listAllFiles [pod1, pod2] (fun _ => some "c")).map Prod.fst = [1, 2] := by
  exact ⟨rfl, rfl⟩

/-- C4: evaluation at the failing input.  With three stored episodes all
present in the download directory and a count of 1, the print loop skips the
single most-recent match and prints the two older ones, while the claim
expects exactly the most-recent match. -/
theorem list_downloaded_count_drops_most_recent :
    listDownloadedPrinted [epA, epB, epC] ["P_a.mp3", "P_b.mp3", "P_c.mp3"] (some 1) =
      [epB, epA] ∧
    (downloadedMatches [epA, epB, epC] ["P_a.mp3", "P_b.mp3", "P_c.mp3"]).reverse.take 1 =
      [epC] := by
  exact ⟨by decide, by decide⟩

/-- Every selected episode is one of the stored episodes. -/
lemma mem_selectEpisodes {ids : Option (List String)} {episodes : List Episode}
    {count : Option Nat} {e : Episode} (h : e ∈ selectEpisodes ids episodes count) :
    e ∈ episodes := by
  simp only [selectEpisodes] at h
  exact List.mem_of_mem_filter (List.take_subset _ _ h)

/-- One map insertion only rearranges previous entries or introduces the
inserted episode. -/
lemma mem_insertByLink {acc : List (String × Episode)} {e : Episode}
    {pe : String × Episode} (h : pe ∈ insertByLink acc e) : pe ∈ acc ∨ pe.2 = e := by
  unfold insertByLink at h
  split at h
  · obtain ⟨q, hq, hqe⟩ := List.mem_map.mp h
    by_cases hql : q.1 = e.link
    · rw [if_pos hql] at hqe
      right
      rw [← hqe]
    · rw [if_neg hql] at hqe
      left
      exact hqe ▸ hq
  · rcases List.mem_append.mp h with h1 | h2
    · exact Or.inl h1
    · right
      cases List.mem_singleton.mp h2
      rfl

/-- Folding map insertions keeps every entry's episode among the accumulator
episodes or the inserted ones. -/
lemma mem_foldl_insertByLink :
    ∀ (l : List Episode) (acc : List (String × Episode)) (pe : String × Episode),
      pe ∈ l.foldl insertByLink acc → pe ∈ acc ∨ pe.2 ∈ l := by
  intro l
  induction l with
  | nil => exact fun acc pe h => Or.inl h
  | cons e t ih =>
    intro acc pe h
    rcases ih (insertByLink acc e) pe h with h1 | h2
    · rcases mem_insertByLink h1 with ha | hb
      · exact Or.inl ha
      · exact Or.inr (hb ▸ List.mem_cons_self e t)
    · exact Or.inr (List.mem_cons_of_mem e h2)

/-- Every entry of the link-keyed episode map holds one of the input
episodes. -/
lemma mem_episodesByLink {eps : List Episode} {pe : String × Episode}
    (h : pe ∈ episodesByLink eps) : pe.2 ∈ eps := by
  rcases mem_foldl_insertByLink eps [] pe h with h1 | h2
  · exact absurd h1 (List.not_mem_nil pe)
  · exact h2

/-- Every file the download loop returns is named from some entry of the
link map, with the fixed `.mp3` suffix. -/
lemma downloadGo_names :
    ∀ (emap : List (String × Episode)) (results : List (String × Except Errors String))
      (files : List (String × String)), downloadGo emap results = Except.ok files →
      ∀ f ∈ files, ∃ pe ∈ emap, f.1 = pe.2.podcast ++ "_" ++ pe.2.title ++ ".mp3" := by
  intro emap results
  induction results with
  | nil =>
    intro files h f hf
    simp only [downloadGo] at h
    cases h
    exact absurd hf (List.not_mem_nil f)
  | cons hd t ih =>
    intro files h f hf
    obtain ⟨url, r⟩ := hd
    cases r with
    | error e => cases h
    | ok bytes =>
      simp only [downloadGo] at h
      cases hfind : emap.find? (fun p => p.1 = url) with
      | none =>
        rw [hfind] at h
        cases h
      | some pe =>
        rw [hfind] at h
        cases hrec : downloadGo emap t with
        | error e =>
          rw [hrec] at h
          cases h
        | ok fs =>
          rw [hrec] at h
          cases h
          rcases List.mem_cons.mp hf with heq | htail
          · exact ⟨pe, List.mem_of_find?_eq_some hfind, by rw [heq]⟩
          · exact ih fs hrec f htail

/-- C10: every file name the download flow produces is
`podcast ++ "_" ++ title ++ ".mp3"` for one of the stored episodes,
independent of the extension of the episode's link. -/
theorem download_filename_always_mp3 :
    ∀ (ids : Option (List String)) (episodes : List Episode) (count : Option Nat)
      (fetch : String → Except Errors String) (files : List (String × String)),
      downloadFlow ids episodes count fetch = Except.ok files →
      ∀ f ∈ files, ∃ e ∈ episodes, f.1 = e.podcast ++ "_" ++ e.title ++ ".mp3" := by
  intro ids episodes count fetch files h f hf
  simp only [downloadFlow] at h
  obtain ⟨pe, hpe, hname⟩ := downloadGo_names _ _ _ h f hf
  exact ⟨pe.2, mem_selectEpisodes (mem_episodesByLink hpe), hname⟩

/-- Witness for C10: an episode whose link ends in `.m4a` is still
materialized under a `.mp3` name. -/
theorem download_filename_always_mp3_witness :
    ∃ e ∈ [m4aEpisode], "Pod_Ep.mp3" = e.podcast ++ "_" ++ e.title ++ ".mp3" :=
  download_filename_always_mp3 none [m4aEpisode] none (fun _ => Except.ok "payload")
    [("Pod_Ep.mp3", "payload")] (by rfl) ("Pod_Ep.mp3", "payload")
    (List.mem_singleton.mpr rfl)

end Pcasts
